import Mathlib

/-!
Shallow embedding of the coinaddr address-validation module
(src/coinaddr/validation.py) together with the auxiliary algorithms it
calls (SHA-256 from hashlib, Keccak-256 from the sha3 package, and the
base-58 big-integer codec from the base58check package).  Byte strings
are modelled as `List Nat` with every element a byte value; machine
words are `Nat` reduced modulo 2^32 or 2^64 where the source wraps.
Fallible Python code (statements that can raise) is modelled with
`Except PyErr`.
-/

/-- Error outcomes of the embedded Python code, tagged by raise site. -/
inductive PyErr : Type
  /-- ValueError from charset.index on a byte absent from the base-58 charset,
      or from a charset whose length is not 58. -/
  | valueError
  /-- IndexError from abytes[0] on an empty decode or addr_hash[i] past the digest. -/
  | indexError
  /-- TypeError from functools.reduce on an empty networks tuple or from the
      ValidationResult attr validator seeing network=None. -/
  | typeError
  /-- UnicodeDecodeError from address.decode() on non-ASCII bytes. -/
  | unicodeDecodeError
  /-- UnicodeEncodeError from addr.lower().encode(ascii) on non-ASCII text. -/
  | unicodeEncodeError
  /-- Resolution failure: the currency identifier is not in the catalog. -/
  | unknownCurrency
  /-- Resolution failure: the currency names a validator absent from the registry. -/
  | unknownValidator
deriving DecidableEq, Repr

deriving instance DecidableEq for Except

/-- Last 4 bytes of a byte string, as Python abytes[-4:]. -/
def last4 (l : List Nat) : List Nat := l.drop (l.length - 4)

/-- All but the last 4 bytes, as Python abytes[:-4]. -/
def dropLast4 (l : List Nat) : List Nat := l.take (l.length - 4)

/-! ## SHA-256 (hashlib.sha256) -/

/-- Right rotation on 32-bit words. -/
def rotr32 (x n : Nat) : Nat :=
  Nat.lor (Nat.shiftRight x n) (Nat.shiftLeft x (32 - n)) % 4294967296

/-- SHA-256 round constants. -/
def sha256K : List Nat :=
  [1116352408, 1899447441, 3049323471, 3921009573, 961987163, 1508970993,
   2453635748, 2870763221, 3624381080, 310598401, 607225278, 1426881987,
   1925078388, 2162078206, 2614888103, 3248222580, 3835390401, 4022224774,
   264347078, 604807628, 770255983, 1249150122, 1555081692, 1996064986,
   2554220882, 2821834349, 2952996808, 3210313671, 3336571891, 3584528711,
   113926993, 338241895, 666307205, 773529912, 1294757372, 1396182291,
   1695183700, 1986661051, 2177026350, 2456956037, 2730485921, 2820302411,
   3259730800, 3345764771, 3516065817, 3600352804, 4094571909, 275423344,
   430227734, 506948616, 659060556, 883997877, 958139571, 1322822218,
   1537002063, 1747873779, 1955562222, 2024104815, 2227730452, 2361852424,
   2428436474, 2756734187, 3204031479, 3329325298]

/-- SHA-256 initial hash state. -/
def sha256H0 : List Nat :=
  [1779033703, 3144134277, 1013904242, 2773480762,
   1359893119, 2600822924, 528734635, 1541459225]

/-- Big-endian 8-byte rendering of the bit length, for SHA-256 padding. -/
def be64 (n : Nat) : List Nat :=
  [(n >>> 56) % 256, (n >>> 48) % 256, (n >>> 40) % 256, (n >>> 32) % 256,
   (n >>> 24) % 256, (n >>> 16) % 256, (n >>> 8) % 256, n % 256]

/-- SHA-256 message padding: the byte 128, zeros, then the 64-bit message bit length. -/
def sha256Pad (msg : List Nat) : List Nat :=
  msg ++ [128] ++ List.replicate ((64 - ((msg.length + 9) % 64)) % 64) 0
      ++ be64 (8 * msg.length)

/-- Group a byte string into blocks of the given size; the fuel argument is
    an upper bound on the number of blocks (the list length suffices). -/
def toBlocks (size : Nat) : Nat → List Nat → List (List Nat)
  | 0, _ => []
  | fuel + 1, l => if l.isEmpty then [] else l.take size :: toBlocks size fuel (l.drop size)

/-- Pack bytes into big-endian 32-bit words. -/
def bytesToWords32 : List Nat → List Nat
  | b0 :: b1 :: b2 :: b3 :: rest =>
      (((b0 * 256 + b1) * 256 + b2) * 256 + b3) :: bytesToWords32 rest
  | _ => []

/-- Render a 32-bit word as 4 big-endian bytes. -/
def wordToBytesBE (w : Nat) : List Nat :=
  [(w >>> 24) % 256, (w >>> 16) % 256, (w >>> 8) % 256, w % 256]

/-- Small sigma-0 of the SHA-256 message schedule. -/
def ssig0 (x : Nat) : Nat :=
  Nat.xor (Nat.xor (rotr32 x 7) (rotr32 x 18)) (Nat.shiftRight x 3)

/-- Small sigma-1 of the SHA-256 message schedule. -/
def ssig1 (x : Nat) : Nat :=
  Nat.xor (Nat.xor (rotr32 x 17) (rotr32 x 19)) (Nat.shiftRight x 10)

/-- Big sigma-0 of the SHA-256 compression function. -/
def bsig0 (x : Nat) : Nat :=
  Nat.xor (Nat.xor (rotr32 x 2) (rotr32 x 13)) (rotr32 x 22)

/-- Big sigma-1 of the SHA-256 compression function. -/
def bsig1 (x : Nat) : Nat :=
  Nat.xor (Nat.xor (rotr32 x 6) (rotr32 x 11)) (rotr32 x 25)

/-- One extension step of the message schedule, on the reversed schedule list
    (most recent word first). -/
def schedStep (w : List Nat) : List Nat :=
  ((ssig1 (w.getD 1 0) + w.getD 6 0 + ssig0 (w.getD 14 0) + w.getD 15 0)
    % 4294967296) :: w

/-- Iterate the schedule extension the given number of times. -/
def schedIter : Nat → List Nat → List Nat
  | 0, w => w
  | k + 1, w => schedIter k (schedStep w)

/-- Full 64-word message schedule of one 64-byte block. -/
def sha256Schedule (block : List Nat) : List Nat :=
  (schedIter 48 (bytesToWords32 block).reverse).reverse

/-- One SHA-256 round: the state is the list [a,b,c,d,e,f,g,h]. -/
def sha256Round (st : List Nat) (kw : Nat × Nat) : List Nat :=
  match st with
  | [a, b, c, d, e, f, g, h] =>
    let ch := Nat.xor (Nat.land e f) (Nat.land (Nat.xor e 4294967295) g)
    let maj := Nat.xor (Nat.xor (Nat.land a b) (Nat.land a c)) (Nat.land b c)
    let t1 := (h + bsig1 e + ch + kw.1 + kw.2) % 4294967296
    let t2 := (bsig0 a + maj) % 4294967296
    [(t1 + t2) % 4294967296, a, b, c, (d + t1) % 4294967296, e, f, g]
  | other => other

/-- SHA-256 compression of one block into the running hash state. -/
def sha256Compress (h : List Nat) (block : List Nat) : List Nat :=
  let st := List.foldl sha256Round h (sha256K.zip (sha256Schedule block))
  List.zipWith (fun x y => (x + y) % 4294967296) h st

/-- SHA-256 digest (32 bytes) of a byte string, as hashlib sha256().digest(). -/
def sha256 (msg : List Nat) : List Nat :=
  let padded := sha256Pad msg
  ((toBlocks 64 padded.length padded).foldl sha256Compress sha256H0).flatMap
    wordToBytesBE


/-! ## Keccak-256 (the sha3 package keccak_256, original Keccak padding) -/

/-- Left rotation on 64-bit lanes. -/
def rol64 (x n : Nat) : Nat :=
  Nat.land
    (Nat.lor (Nat.shiftLeft x (n % 64)) (Nat.shiftRight x (64 - n % 64)))
    18446744073709551615

/-- Keccak round constants. -/
def keccakRC : List Nat :=
  [1, 32898, 9223372036854808714, 9223372039002292224,
   32907, 2147483649, 9223372039002292353, 9223372036854808585,
   138, 136, 2147516425, 2147483658,
   2147516555, 9223372036854775947, 9223372036854808713, 9223372036854808579,
   9223372036854808578, 9223372036854775936, 32778, 9223372039002259466,
   9223372039002292353, 9223372036854808704, 2147483649, 9223372039002292232]

/-- Keccak rotation offsets, flattened over lane index x + 5 * y. -/
def keccakRot : List Nat :=
  [0, 1, 62, 28, 27] ++ [36, 44, 6, 55, 20] ++ [3, 10, 43, 25, 39] ++
    [41, 45, 15, 21, 8] ++ [18, 2, 61, 56, 14]

/-- Theta step on the 25-lane state (lane (x, y) at index x + 5 * y). -/
def keccakTheta (a : List Nat) : List Nat :=
  let c := (List.range 5).map fun x =>
    a.getD x 0 ^^^ a.getD (x + 5) 0 ^^^ a.getD (x + 10) 0 ^^^
      a.getD (x + 15) 0 ^^^ a.getD (x + 20) 0
  let d := (List.range 5).map fun x =>
    c.getD ((x + 4) % 5) 0 ^^^ rol64 (c.getD ((x + 1) % 5) 0) 1
  (List.range 25).map fun i => a.getD i 0 ^^^ d.getD (i % 5) 0

/-- Combined rho and pi steps: lane (x, y) rotated and moved to (y, 2x + 3y). -/
def keccakRhoPi (a : List Nat) : List Nat :=
  (List.range 25).map fun j =>
    let y := j % 5
    let x := (3 * (j / 5 + 2 * y)) % 5
    rol64 (a.getD (x + 5 * y) 0) (keccakRot.getD (x + 5 * y) 0)

/-- Chi step, acting along each row of the state. -/
def keccakChi (b : List Nat) : List Nat :=
  (List.range 25).map fun j =>
    let x := j % 5
    let row := 5 * (j / 5)
    b.getD j 0 ^^^
      ((b.getD ((x + 1) % 5 + row) 0 ^^^ 18446744073709551615) &&&
        b.getD ((x + 2) % 5 + row) 0)

/-- One Keccak round with the given round constant. -/
def keccakRound (a : List Nat) (rc : Nat) : List Nat :=
  match keccakChi (keccakRhoPi (keccakTheta a)) with
  | a0 :: rest => (a0 ^^^ rc) :: rest
  | [] => []

/-- The Keccak-f[1600] permutation: 24 rounds. -/
def keccakF (a : List Nat) : List Nat := keccakRC.foldl keccakRound a

/-- Pack bytes into little-endian 64-bit lanes. -/
def bytesToLanesLE : List Nat → List Nat
  | b0 :: b1 :: b2 :: b3 :: b4 :: b5 :: b6 :: b7 :: rest =>
      (b0 + 256 * (b1 + 256 * (b2 + 256 * (b3 + 256 * (b4 + 256 *
        (b5 + 256 * (b6 + 256 * b7))))))) :: bytesToLanesLE rest
  | _ => []

/-- Render a 64-bit lane as 8 little-endian bytes. -/
def laneToBytesLE (w : Nat) : List Nat :=
  (List.range 8).map fun k => (w >>> (8 * k)) % 256

/-- Keccak multi-rate padding with domain byte 1 as in original Keccak and
    the sha3 package keccak_256, not the SHA-3 domain byte 6. -/
def keccakPad (msg : List Nat) : List Nat :=
  let padlen := 136 - msg.length % 136
  if padlen = 1 then msg ++ [129]
  else msg ++ [1] ++ List.replicate (padlen - 2) 0 ++ [128]

/-- Absorb one 136-byte block into the state and permute. -/
def keccakAbsorb (st : List Nat) (block : List Nat) : List Nat :=
  let lanes := bytesToLanesLE block
  keccakF ((List.range 25).map fun i => st.getD i 0 ^^^ lanes.getD i 0)

/-- Keccak-256 digest (32 bytes) of a byte string. -/
def keccak256 (msg : List Nat) : List Nat :=
  let padded := keccakPad msg
  let st := (toBlocks 136 padded.length padded).foldl keccakAbsorb
    (List.replicate 25 0)
  (st.take 4).flatMap laneToBytesLE


/-! ## base58check package: big-integer base-58 codec -/

/-- Default charset of the base58check package. -/
def b58DefaultCharset : List Nat :=
  ("123456789ABCDEFGHJKLMNPQRSTUVWXYZabcdefghijkmnopqrstuvwxyz".toList).map
    Char.toNat

/-- Big-integer accumulation of base-58 digits, as the decode loop
    acc = acc * base + charset.index(char); a byte absent from the charset is
    a ValueError (None). -/
def b58decodeAcc (cs : List Nat) (val : List Nat) : Option Nat :=
  val.foldl
    (fun acc b => do
      let a ← acc
      let i ← List.findIdx? (fun c => c == b) cs
      pure (a * cs.length + i))
    (some 0)

/-- Big-endian byte rendering of a natural number, empty for zero; the fuel
    argument keeps the recursion structural and any fuel at least the byte
    count of n gives the exact rendering. -/
def natToBytesBE : Nat → Nat → List Nat
  | 0, _ => []
  | fuel + 1, n => if n = 0 then [] else natToBytesBE fuel (n / 256) ++ [n % 256]

/-- Base-58 digit rendering of a natural number, empty for zero; fuel as in
    natToBytesBE (2 * byte length always suffices since 256 < 58 ^ 2). -/
def natToB58 (cs : List Nat) : Nat → Nat → List Nat
  | 0, _ => []
  | fuel + 1, n =>
    if n = 0 then [] else natToB58 cs fuel (n / cs.length) ++ [cs.getD (n % cs.length) 0]

/-- Big-endian big-integer value of a byte string. -/
def bytesToNatBE (l : List Nat) : Nat := l.foldl (fun a b => a * 256 + b) 0

/-- base58check.b58decode: leading charset[0] bytes become leading zero
    bytes, the rest is big-integer converted; a byte outside the charset
    raises ValueError. -/
def b58decodeE (cs : List Nat) (val : List Nat) : Except PyErr (List Nat) :=
  let stripped := val.dropWhile (fun b => b == cs.getD 0 0)
  match b58decodeAcc cs val with
  | none => .error .valueError
  | some acc =>
    .ok (List.replicate (val.length - stripped.length) 0 ++ natToBytesBE val.length acc)

/-- base58check.b58encode: leading zero bytes become leading charset[0]
    bytes, the rest is big-integer converted to base-58 digits. -/
def b58encode (cs : List Nat) (val : List Nat) : List Nat :=
  let stripped := val.dropWhile (fun b => b == 0)
  List.replicate (val.length - stripped.length) (cs.getD 0 0) ++
    natToB58 cs (2 * val.length) (bytesToNatBE val)

/-! ## Python text helpers for the Ethereum validator

Lean Char.toUpper and Char.toLower act only on ASCII letters, exactly like
Python str.upper and str.lower restricted to ASCII text, which is the only
text reaching these steps (non-ASCII raises first, see ethValidate). -/

/-- Character class [0-9a-f] of the first non-checksummed pattern. -/
def isHexLowerCh (c : Char) : Bool :=
  (decide ('0' ≤ c) && decide (c ≤ '9')) || (decide ('a' ≤ c) && decide (c ≤ 'f'))

/-- Character class [0-9A-F] of the second non-checksummed pattern. -/
def isHexUpperCh (c : Char) : Bool :=
  (decide ('0' ≤ c) && decide (c ≤ '9')) || (decide ('A' ≤ c) && decide (c ≤ 'F'))

/-- Match of the anchored regex (0x)?H{40} for a given hex character class
    H, as re.match with a full-string pattern. -/
def ethPatMatch (hexOk : Char → Bool) (s : List Char) : Bool :=
  (s.length == 40 && s.all hexOk) ||
  (match s with
   | '0' :: 'x' :: rest => rest.length == 40 && rest.all hexOk
   | _ => false)

/-- Python lstrip with the character set {0, x}: drop leading characters
    that are 0 or x, as address.lstrip applied to the two-character string 0x. -/
def postStrip (s : List Char) : List Char :=
  s.dropWhile (fun c => c == '0' || c == 'x')

/-- Lowercase hex character of a digit value below 16. -/
def hexDigitChar (n : Nat) : Char := "0123456789abcdef".toList.getD n '0'

/-- Hex digest text of a byte string, as hashlib hexdigest(). -/
def hexdigest (bs : List Nat) : List Char :=
  bs.flatMap fun b => [hexDigitChar (b / 16), hexDigitChar (b % 16)]

/-- Value of int(c, 16) on a single hex character; only ever applied to
    hexdigest output, which is lowercase hex, so the junk value 0 for other
    characters is never used. -/
def hexVal (c : Char) : Nat :=
  if '0' ≤ c ∧ c ≤ '9' then c.toNat - 48
  else if 'a' ≤ c ∧ c ≤ 'f' then c.toNat - 87
  else if 'A' ≤ c ∧ c ≤ 'F' then c.toNat - 55
  else 0

/-- The per-position mismatch test of the checksum loop: the hash digit
    above 7 with a character not fixed by toUpper, or the hash digit at
    most 7 with a character not fixed by toLower. -/
def ethMismatch (addr hash : List Char) (i : Nat) : Bool :=
  (decide (hexVal (hash.getD i ' ') > 7) &&
    !((addr.getD i ' ').toUpper == addr.getD i ' ')) ||
  (decide (hexVal (hash.getD i ' ') ≤ 7) &&
    !((addr.getD i ' ').toLower == addr.getD i ' '))

/-- The checksum loop of EthereumValidator.validate from position i, with
    fuel = number of remaining positions: indexing the digest past its end
    raises IndexError, a case mismatch returns False, completion returns
    True. -/
def ethCheckAux (addr hash : List Char) : Nat → Nat → Except PyErr Bool
  | 0, _ => .ok true
  | fuel + 1, i =>
    match hash.get? i with
    | none => .error .indexError
    | some _ =>
      if ethMismatch addr hash i then .ok false
      else ethCheckAux addr hash fuel (i + 1)

/-- EthereumValidator.validate on the decoded address text: accept
    immediately on either 40-hex-digit single-case pattern, else strip the
    characters 0 and x from the left, Keccak-256 hash the lowercased rest
    (encode to ASCII raises on non-ASCII text), and run the per-position
    case check against the hex digest. -/
def ethValidate (address : List Char) : Except PyErr Bool :=
  if ethPatMatch isHexLowerCh address || ethPatMatch isHexUpperCh address then
    .ok true
  else
    let addr := postStrip address
    let lowered := addr.map Char.toLower
    if lowered.all (fun c => decide (c.toNat < 128)) then
      ethCheckAux addr (hexdigest (keccak256 (lowered.map Char.toNat)))
        addr.length 0
    else .error .unicodeEncodeError

/-! ## Validator registry (Validators / ValidatorMeta) -/

/-- ValidatorMeta registration: a class with a truthy name not already in
    the registry dict is added; otherwise the registry is unchanged. -/
def registerV {α : Type} (r : List (String × α)) (nm : Option String) (v : α) :
    List (String × α) :=
  match nm with
  | none => r
  | some n =>
    if n = "" then r
    else if (r.find? (fun p => p.1 == n)).isSome then r
    else r ++ [(n, v)]

/-- Validators.get: look a validator up by name. -/
def validatorsGet {α : Type} (r : List (String × α)) (n : String) : Option α :=
  (r.find? (fun p => p.1 == n)).map Prod.snd

/-- Registry resulting from a sequence of class registrations, in order. -/
def registerAll {α : Type} (regs : List (Option String × α)) : List (String × α) :=
  regs.foldl (fun r p => registerV r p.1 p.2) []

/-- The first validator registered under a given truthy name, if any. -/
def firstRegistered {α : Type} (regs : List (Option String × α)) (n : String) :
    Option α :=
  if n = "" then none
  else (regs.find? (fun p => p.1 == some n)).map Prod.snd

/-- The validator classes of the module, in definition order: ValidatorBase
    has name None and is therefore never registered. -/
inductive VKind : Type
  | abstractBase
  | base58Check
  | ethereum
deriving DecidableEq, Repr

/-- The registry as populated by importing the module. -/
def builtinRegistry : List (String × VKind) :=
  registerAll
    [(none, VKind.abstractBase),
     (some "Base58Check", VKind.base58Check),
     (some "Ethereum", VKind.ethereum)]

/-! ## Currency, request, validators, result, entrypoint -/

/-- Modelled from the spec: the currency catalog record (the catalog module
    is imported by validation.py but is not under src).  Fields follow the
    spec data model: name, ticker, a mapping from network label to the list
    of valid version bytes, an optional base-58 charset override, and the
    name of the validator algorithm. -/
structure Currency : Type where
  name : String
  ticker : String
  networks : List (String × List Nat)
  charset : Option (List Nat)
  validator : String
deriving DecidableEq, Repr

/-- The charset the decoder is called with: ValidationRequest.extras puts
    the currency charset in the decoder arguments only when truthy,
    otherwise the base58check default applies. -/
def reqCharset (c : Currency) : List Nat :=
  match c.charset with
  | some cs => if cs.isEmpty then b58DefaultCharset else cs
  | none => b58DefaultCharset

/-- ValidationRequest.networks: functools.reduce(operator.concat, ...) over
    the tuple of per-network version byte lists; reduce on an empty tuple
    raises TypeError. -/
def reqNetworksE (c : Currency) : Except PyErr (List Nat) :=
  if c.networks.isEmpty then .error .typeError
  else .ok (c.networks.map Prod.snd).flatten

/-- The length test of Base58CheckValidator.validate as written in the
    source: the chained comparison 25 > len(address) > 35. -/
def lengthGateB (address : List Nat) : Bool :=
  decide (25 > address.length) && decide (address.length > 35)

/-- Base58CheckValidator.validate: length gate, base-58 decode, version
    byte membership in the concatenated network bytes, double-SHA256
    checksum over all but the last 4 bytes against the last 4 bytes, and
    the re-encoding round-trip comparison. -/
def b58validate (c : Currency) (address : List Nat) : Except PyErr Bool :=
  if lengthGateB address then .ok false
  else
    match b58decodeE (reqCharset c) address with
    | .error e => .error e
    | .ok abytes =>
      match abytes.head? with
      | none => .error .indexError
      | some b0 =>
        match reqNetworksE c with
        | .error e => .error e
        | .ok nets =>
          if b0 ∈ nets then
            if last4 abytes = (sha256 (sha256 (dropLast4 abytes))).take 4 then
              .ok (decide (address = b58encode (reqCharset c) abytes))
            else .ok false
          else .ok false

/-- The scan of Base58CheckValidator.network over the currency networks
    mapping: first network label whose version byte list contains the byte. -/
def b58networkName (c : Currency) (b0 : Nat) : Option String :=
  (c.networks.find? (fun p => p.2.contains b0)).map Prod.fst

/-- Base58CheckValidator.network: re-decode the address, take the first
    byte (IndexError on an empty decode), scan the networks mapping; None
    when no label matches. -/
def b58network (c : Currency) (address : List Nat) : Except PyErr (Option String) :=
  match b58decodeE (reqCharset c) address with
  | .error e => .error e
  | .ok abytes =>
    match abytes.head? with
    | none => .error .indexError
    | some b0 => .ok (b58networkName c b0)

/-- bytes.decode() restricted to ASCII bytes: coinaddr only ever reaches
    the Ethereum text path with ASCII addresses; any byte at or above 128
    leads to an uncaught Unicode error in the source (at decode for invalid
    UTF-8, at the later encode to ASCII otherwise), modelled here as a
    single decode-site error. -/
def decodeAscii (bs : List Nat) : Except PyErr (List Char) :=
  if bs.all (fun b => decide (b < 128)) then .ok (bs.map Char.ofNat)
  else .error .unicodeDecodeError

/-- ValidationResult: the attr validators require name, ticker and network
    to be strings, address bytes and valid a bool; construction with
    network=None raises TypeError, modelled at the construction site in
    execute. -/
structure ValidationResult : Type where
  name : String
  ticker : String
  address : List Nat
  valid : Bool
  network : String
deriving DecidableEq, Repr

/-- ValidationRequest.execute: look the validator up by the currency
    validator name, run validate() then the network property, and build the
    ValidationResult; an unregistered validator name is a resolution error,
    and a network of None fails the ValidationResult string validator
    (TypeError). -/
def execute (c : Currency) (address : List Nat) : Except PyErr ValidationResult :=
  match validatorsGet builtinRegistry c.validator with
  | none => .error .unknownValidator
  | some VKind.abstractBase => .error .typeError
  | some VKind.base58Check =>
    match b58validate c address with
    | .error e => .error e
    | .ok v =>
      match b58network c address with
      | .error e => .error e
      | .ok none => .error .typeError
      | .ok (some nm) => .ok ⟨c.name, c.ticker, address, v, nm⟩
  | some VKind.ethereum =>
    match decodeAscii address with
    | .error e => .error e
    | .ok chars =>
      match ethValidate chars with
      | .error e => .error e
      | .ok v => .ok ⟨c.name, c.ticker, address, v, "both"⟩

/-- Modelled from the spec: catalog lookup by currency name or ticker (the
    Currencies catalog module is not under src; per the spec the identifier
    is matched by name or ticker). -/
def currenciesGet (catalog : List Currency) (ident : String) : Option Currency :=
  catalog.find? (fun c => c.name == ident || c.ticker == ident)

/-- The library entrypoint validate(currency, address) on an address given
    as bytes: resolve the currency in the catalog, build the request and
    execute it; an unknown identifier is a resolution error. -/
def coinValidate (catalog : List Currency) (ident : String) (address : List Nat) :
    Except PyErr ValidationResult :=
  match currenciesGet catalog ident with
  | none => .error .unknownCurrency
  | some c => execute c address

/-- Modelled from the spec: a bitcoin currency record, Base58Check
    validator, main and test networks with the standard version bytes, no
    charset override (the catalog module is not under src; version bytes
    follow the spec scenario that the Boat address is valid on network
    main). -/
def bitcoin : Currency :=
  ⟨"bitcoin", "btc", [("main", [0, 5]), ("test", [111, 196])],
    none, "Base58Check"⟩

/-- Modelled from the spec: an ethereum currency record with the Ethereum
    validator (the catalog module is not under src). -/
def ethereumCur : Currency :=
  ⟨"ethereum", "eth", [("both", [])], none, "Ethereum"⟩

/-! ## Concrete addresses used as inputs -/

/-- Bytes of the address 1BoatSLRHtKNngkdXEeobR76b53LETtpyT. -/
def boatAddr : List Nat :=
  [49, 66, 111, 97, 116, 83, 76, 82, 72, 116, 75, 78, 110, 103, 107, 100,
   88, 69, 101, 111, 98, 82, 55, 54, 98, 53, 51, 76, 69, 84, 116, 112, 121, 84]

/-- Bytes of the address 1BoatSLRHtKNngkdXEeobR76b53LETtpyX, the Boat
    address with its last character corrupted. -/
def boatAddrBad : List Nat :=
  [49, 66, 111, 97, 116, 83, 76, 82, 72, 116, 75, 78, 110, 103, 107, 100,
   88, 69, 101, 111, 98, 82, 55, 54, 98, 53, 51, 76, 69, 84, 116, 112, 121, 88]

/-- Bytes of the 35-character address 125KvAuJWcbmUuJKsGPgJygtiLhboHbLsLJ,
    whose decode is a 26-byte payload with version byte 0 and a correct
    double-SHA256 checksum. -/
def addr35 : List Nat :=
  [49, 50, 53, 75, 118, 65, 117, 74, 87, 99, 98, 109, 85, 117, 74, 75, 115,
   71, 80, 103, 74, 121, 103, 116, 105, 76, 104, 98, 111, 72, 98, 76, 115,
   76, 74]

/-- The hex digest the Ethereum checksum path compares against: Keccak-256
    of the lowercased post-strip address text. -/
def ethHashHex (address : List Char) : List Char :=
  hexdigest (keccak256 (((postStrip address).map Char.toLower).map Char.toNat))

/-- Position i of the post-strip address agrees with the digest: a hash
    digit above 7 forces an uppercase character (one fixed by toUpper) and
    a hash digit at most 7 forces a lowercase character (one fixed by
    toLower). -/
def ethPosOk (addr hash : List Char) (i : Nat) : Prop :=
  (hexVal (hash.getD i ' ') > 7 → (addr.getD i ' ').toUpper = addr.getD i ' ') ∧
  (hexVal (hash.getD i ' ') ≤ 7 → (addr.getD i ' ').toLower = addr.getD i ' ')

/-- The position test is decidable, so witnesses can evaluate it. -/
instance ethPosOkDec (addr hash : List Char) (i : Nat) :
    Decidable (ethPosOk addr hash i) := by
  unfold ethPosOk
  infer_instance

/-! ## Sanity vectors and helper lemmas -/

/-- Sanity vector: SHA-256 of the empty byte string. -/
theorem sha256_empty :
    sha256 [] =
      [227, 176, 196, 66, 152, 252, 28, 20, 154, 251, 244, 200,
       153, 111, 185, 36, 39, 174, 65, 228, 100, 155, 147, 76,
       164, 149, 153, 27, 120, 82, 184, 85] := by decide

set_option maxRecDepth 100000 in
/-- Sanity vector: Keccak-256 of the empty byte string. -/
theorem keccak256_empty :
    keccak256 [] =
      [197, 210, 70, 1, 134, 247, 35, 60, 146, 126, 125, 178,
       220, 199, 3, 192, 229, 0, 182, 83, 202, 130, 39, 59,
       123, 250, 216, 4, 93, 133, 164, 112] := by decide

set_option maxRecDepth 100000 in
/-- Sanity check: the Boat address decodes to the documented 25 bytes. -/
theorem boat_decode :
    b58decodeE b58DefaultCharset boatAddr =
      .ok [0, 118, 128, 173, 236, 142, 171, 202, 186, 198, 118, 190, 158,
           131, 133, 74, 222, 11, 210, 44, 219, 11, 185, 96, 222] := by decide

set_option maxRecDepth 1000000 in
/-- Sanity check: the spec scenario that the Boat address is valid for
    bitcoin on network main. -/
theorem boat_executes :
    execute bitcoin boatAddr =
      .ok ⟨"bitcoin", "btc", boatAddr, true, "main"⟩ := by decide

set_option maxRecDepth 1000000 in
/-- Sanity check: the canonical EIP-55 mixed-case rendering of the known
    test address validates true through the checksum path. -/
theorem eth_eip55_valid :
    ethValidate ("0x5aAeb6053F3E94C9b9A09f33669435E7Ef1BeAed".toList) =
      .ok true := by decide

/-! ## Shared helper lemmas -/

/-- The chained comparison 25 > len > 35 of the source length test is
    unsatisfiable, so the length gate never rejects any address. -/
theorem lengthGateB_eq_false (address : List Nat) : lengthGateB address = false := by
  simp only [lengthGateB, Bool.and_eq_false_iff, decide_eq_false_iff_not]
  omega

/-- A byte found by the network scan is a member of the concatenation of
    all per-network version byte lists. -/
theorem mem_flatten_of_find?_contains {l : List (String × List Nat)} {b0 : Nat}
    {q : String × List Nat} (h : l.find? (fun p => p.2.contains b0) = some q) :
    b0 ∈ (l.map Prod.snd).flatten := by
  have hq := List.find?_some h
  have hmem := List.mem_of_find?_eq_some h
  exact List.mem_flatten.mpr
    ⟨q.2, List.mem_map.mpr ⟨q, hmem, rfl⟩, by simpa using hq⟩

/-- A byte in no per-network version byte list is not in their concatenation. -/
theorem not_mem_flatten_of_forall {l : List (String × List Nat)} {b0 : Nat}
    (h : ∀ p ∈ l, b0 ∉ p.2) : b0 ∉ (l.map Prod.snd).flatten := by
  intro hmem
  rcases List.mem_flatten.mp hmem with ⟨bs, hbs, hb⟩
  rcases List.mem_map.mp hbs with ⟨p, hp, rfl⟩
  exact h p hp hb

/-- A network scan that finds no entry means the byte is in no per-network
    version byte list. -/
theorem not_mem_flatten_of_find?_none {l : List (String × List Nat)} {b0 : Nat}
    (h : l.find? (fun p => p.2.contains b0) = none) :
    b0 ∉ (l.map Prod.snd).flatten := by
  refine not_mem_flatten_of_forall (fun p hp hmem => ?_)
  have := List.find?_eq_none.mp h p hp
  simp at this
  exact this hmem

/-- Any suffix of s that does not begin with a character satisfying p is at
    most as long as dropWhile p s. -/
theorem suffix_length_le_dropWhile (p : Char → Bool) :
    ∀ (s t : List Char), t <:+ s → (∀ c, t.head? = some c → p c = false) →
      t.length ≤ (s.dropWhile p).length := by
  intro s
  induction s with
  | nil =>
    intro t ht _
    simp_all
  | cons a s ih =>
    intro t ht hhead
    rw [List.dropWhile_cons]
    by_cases hpa : p a
    · simp only [hpa, if_true]
      rcases List.suffix_cons_iff.mp ht with rfl | hts
      · have := hhead a rfl
        rw [hpa] at this
        exact absurd this (by simp)
      · exact ih t hts hhead
    · simp only [hpa, if_false]
      exact ht.length_le

/-! ## Claim C2 -/

set_option maxRecDepth 1000000 in
/-- C2: the claim states that Base58CheckValidator.validate rejects every
    address of length below 25 or at or above 35, with length 35 failing
    the gate.  The source test is the chained comparison
    25 > len(address) > 35, which no length satisfies, so the gate rejects
    nothing: every address passes it, and the concrete 35-character address
    addr35 with a correct payload validates fully to True. -/
theorem claim_C2 :
    (∀ address : List Nat, lengthGateB address = false) ∧
    addr35.length = 35 ∧
    b58validate bitcoin addr35 = .ok true ∧
    execute bitcoin addr35 = .ok ⟨"bitcoin", "btc", addr35, true, "main"⟩ :=
  ⟨lengthGateB_eq_false, by decide, by decide, by decide⟩

/-! ## Claim C5 -/

/-- C5: EthereumValidator.validate returns true for every address matching
    either non-checksummed pattern: exactly 40 hex digits, all lowercase or
    all uppercase, with an optional 0x prefix, regardless of checksum. -/
theorem claim_C5 (address : List Char)
    (h : ethPatMatch isHexLowerCh address = true ∨
         ethPatMatch isHexUpperCh address = true) :
    ethValidate address = .ok true := by
  rcases h with h | h <;> simp [ethValidate, h]

/-- Witness for C5 at the concrete all-lowercase 0x-prefixed address of 40
    a digits. -/
theorem claim_C5_witness :
    ethValidate ("0xaaaaaaaaaaaaaaaaaaaaaaaaaaaaaaaaaaaaaaaa".toList) = .ok true :=
  claim_C5 _ (Or.inl (by decide))

/-! ## Claim C7 -/

/-- C7: the 0x stripping of the Ethereum checksum path is a left-strip of
    the individual characters 0 and x: the post-strip text is a suffix of
    the address, does not begin with 0 or x, is the longest such suffix
    (leading zero hex digits are removed too), and is exactly the text the
    checksum path hashes and case-checks. -/
theorem claim_C7 (address : List Char) :
    postStrip address <:+ address ∧
    (∀ c, (postStrip address).head? = some c → c ≠ '0' ∧ c ≠ 'x') ∧
    (∀ t : List Char, t <:+ address →
      (∀ c, t.head? = some c → c ≠ '0' ∧ c ≠ 'x') →
      t.length ≤ (postStrip address).length) ∧
    (ethPatMatch isHexLowerCh address = false →
     ethPatMatch isHexUpperCh address = false →
     ethValidate address =
       (let addr := postStrip address
        let lowered := addr.map Char.toLower
        if lowered.all (fun c => decide (c.toNat < 128)) then
          ethCheckAux addr (hexdigest (keccak256 (lowered.map Char.toNat)))
            addr.length 0
        else .error .unicodeEncodeError)) := by
  refine ⟨List.dropWhile_suffix _, ?_, ?_, ?_⟩
  · intro c hc
    have h := List.head?_dropWhile_not (fun c => c == '0' || c == 'x') address
    rw [show postStrip address = address.dropWhile (fun c => c == '0' || c == 'x')
          from rfl] at hc
    rw [hc] at h
    simpa using h
  · intro t ht hh
    refine suffix_length_le_dropWhile _ address t ht (fun c hc => ?_)
    have := hh c hc
    simp [this.1, this.2]
  · intro h1 h2
    simp [ethValidate, h1, h2]

/-- Witness for C7 at the concrete address 2748: the strip removes the
    prefix characters 0, x and the following zero digit, and the suffix bc
    of the address is no longer than the post-strip text abc. -/
theorem claim_C7_witness :
    postStrip ("0x0abc".toList) = "abc".toList ∧
    ("bc".toList).length ≤ (postStrip ("0x0abc".toList)).length := by
  refine ⟨by decide, ?_⟩
  exact (claim_C7 ("0x0abc".toList)).2.2.1 ("bc".toList)
    ⟨"0x0a".toList, by decide⟩ (by intro c hc; simp at hc; subst hc; decide)

/-! ## Claim C9 -/

/-- C9: for an address that decodes (to a nonempty byte string, for a
    currency with at least one network), validate returns false unless the
    first decoded byte is in the flattened collection of version bytes,
    which is the concatenation of the per-network version byte lists. -/
theorem claim_C9 (c : Currency) (address abytes : List Nat) (b0 : Nat)
    (hdec : b58decodeE (reqCharset c) address = .ok abytes)
    (hhead : abytes.head? = some b0)
    (hnets : c.networks ≠ [])
    (hnot : b0 ∉ ((c.networks.map Prod.snd).flatten)) :
    b58validate c address = .ok false ∧
    reqNetworksE c = .ok ((c.networks.map Prod.snd).flatten) := by
  have hne : reqNetworksE c = .ok ((c.networks.map Prod.snd).flatten) := by
    simp [reqNetworksE, hnets]
  refine ⟨?_, hne⟩
  simp [b58validate, lengthGateB_eq_false, hdec, hhead, hne, hnot]

/-- Witness for C9: the one-character address 2 decodes to the byte 1,
    which is in none of the bitcoin networks, and validate returns false. -/
theorem claim_C9_witness :
    b58decodeE (reqCharset bitcoin) [50] = .ok [1] ∧
    b58validate bitcoin [50] = .ok false := by
  refine ⟨by decide, ?_⟩
  exact (claim_C9 bitcoin [50] [1] 1 (by decide) (by decide) (by decide)
    (by decide)).1

/-! ## Claim C10 -/

/-- C10: when the address decodes but its first byte belongs to no network
    version byte list, execute raises instead of returning a result: the
    network property yields None and the ValidationResult string validator
    rejects it (TypeError). -/
theorem claim_C10 (c : Currency) (address abytes : List Nat) (b0 : Nat)
    (hval : c.validator = "Base58Check")
    (hdec : b58decodeE (reqCharset c) address = .ok abytes)
    (hhead : abytes.head? = some b0)
    (hnets : c.networks ≠ [])
    (hnomem : ∀ p ∈ c.networks, b0 ∉ p.2) :
    b58network c address = .ok none ∧
    execute c address = .error PyErr.typeError ∧
    ∀ r : ValidationResult, execute c address ≠ .ok r := by
  have hfind : c.networks.find? (fun p => p.2.contains b0) = none := by
    rw [List.find?_eq_none]
    intro p hp
    simpa using hnomem p hp
  have hnn : b58networkName c b0 = none := by
    unfold b58networkName
    rw [hfind]
    rfl
  have hnw : b58network c address = .ok none := by
    simp [b58network, hdec, hhead, hnn]
  have hne : reqNetworksE c = .ok ((c.networks.map Prod.snd).flatten) := by
    simp [reqNetworksE, hnets]
  have hv : b58validate c address = .ok false := by
    have hnot := not_mem_flatten_of_find?_none hfind
    simp [b58validate, lengthGateB_eq_false, hdec, hhead, hne, hnot]
  have hreg : validatorsGet builtinRegistry "Base58Check" =
      some VKind.base58Check := by decide
  have hex : execute c address = .error PyErr.typeError := by
    simp [execute, hval, hreg, hv, hnw]
  exact ⟨hnw, hex, fun r h => by rw [hex] at h; exact Except.noConfusion h⟩

/-- Witness for C10: the one-character address 3 decodes to the byte 2,
    in no bitcoin network, and execute raises TypeError. -/
theorem claim_C10_witness :
    execute bitcoin [51] = .error PyErr.typeError :=
  (claim_C10 bitcoin [51] [2] 2 rfl (by decide) (by decide) (by decide)
    (by decide)).2.1

/-! ## Claim C4 -/

/-- C4: round-trip: whenever Base58CheckValidator.validate returns true,
    re-encoding the decoded bytes with the same charset reproduces the
    original address bytes exactly. -/
theorem claim_C4 (c : Currency) (address abytes : List Nat)
    (hdec : b58decodeE (reqCharset c) address = .ok abytes)
    (hvalid : b58validate c address = .ok true) :
    b58encode (reqCharset c) abytes = address := by
  cases hh : abytes.head? with
  | none => simp [b58validate, lengthGateB_eq_false, hdec, hh] at hvalid
  | some b0 =>
    cases hn : reqNetworksE c with
    | error e => simp [b58validate, lengthGateB_eq_false, hdec, hh, hn] at hvalid
    | ok nets =>
      by_cases hmem : b0 ∈ nets
      · by_cases hcs : last4 abytes = (sha256 (sha256 (dropLast4 abytes))).take 4
        · simp [b58validate, lengthGateB_eq_false, hdec, hh, hn, hmem, hcs]
            at hvalid
          exact hvalid.symm
        · simp [b58validate, lengthGateB_eq_false, hdec, hh, hn, hmem, hcs]
            at hvalid
      · simp [b58validate, lengthGateB_eq_false, hdec, hh, hn, hmem] at hvalid

set_option maxRecDepth 1000000 in
/-- Witness for C4: the Boat address validates true and re-encoding its
    decoded 25 bytes gives back the address bytes. -/
theorem claim_C4_witness :
    b58encode (reqCharset bitcoin)
      [0, 118, 128, 173, 236, 142, 171, 202, 186, 198, 118, 190, 158, 131,
       133, 74, 222, 11, 210, 44, 219, 11, 185, 96, 222] = boatAddr :=
  claim_C4 bitcoin boatAddr _ (by decide) (by decide)

/-! ## Claim C3 -/

set_option maxRecDepth 100000 in
/-- Counterexample for C3 as stated: the empty address base-58-decodes (to
    the empty byte string), the checksum comparison of the claim is a
    mismatch, yet validate does not return false: it raises IndexError at
    abytes[0]. -/
theorem claim_C3_counterexample :
    b58decodeE (reqCharset bitcoin) ([] : List Nat) = .ok [] ∧
    last4 [] ≠ (sha256 (sha256 (dropLast4 []))).take 4 ∧
    b58validate bitcoin [] = .error PyErr.indexError ∧
    Except.error PyErr.indexError ≠ (Except.ok false : Except PyErr Bool) := by
  refine ⟨by decide, by decide, by decide, by decide⟩

/-- C3 (amended): for every address that base-58-decodes, a checksum
    mismatch (first 4 bytes of the double-SHA256 of all but the last 4
    decoded bytes differing from those last 4 bytes) means validate never
    returns true, and when the decoded string is nonempty and the currency
    has at least one network, validate returns false. -/
theorem claim_C3 (c : Currency) (address abytes : List Nat)
    (hdec : b58decodeE (reqCharset c) address = .ok abytes)
    (hmis : last4 abytes ≠ (sha256 (sha256 (dropLast4 abytes))).take 4) :
    b58validate c address ≠ .ok true ∧
    (abytes ≠ [] → c.networks ≠ [] → b58validate c address = .ok false) := by
  constructor
  · intro hvalid
    cases hh : abytes.head? with
    | none => simp [b58validate, lengthGateB_eq_false, hdec, hh] at hvalid
    | some b0 =>
      cases hn : reqNetworksE c with
      | error e => simp [b58validate, lengthGateB_eq_false, hdec, hh, hn] at hvalid
      | ok nets =>
        by_cases hmem : b0 ∈ nets
        · simp [b58validate, lengthGateB_eq_false, hdec, hh, hn, hmem, hmis]
            at hvalid
        · simp [b58validate, lengthGateB_eq_false, hdec, hh, hn, hmem] at hvalid
  · intro hne hnets
    have hh : ∃ b0, abytes.head? = some b0 := by
      cases abytes with
      | nil => exact absurd rfl hne
      | cons a t => exact ⟨a, rfl⟩
    rcases hh with ⟨b0, hh⟩
    have hn : reqNetworksE c = .ok ((c.networks.map Prod.snd).flatten) := by
      simp [reqNetworksE, hnets]
    by_cases hmem : b0 ∈ (c.networks.map Prod.snd).flatten
    · simp [b58validate, lengthGateB_eq_false, hdec, hh, hn, hmem, hmis]
    · simp [b58validate, lengthGateB_eq_false, hdec, hh, hn, hmem]

set_option maxRecDepth 1000000 in
/-- Witness for C3 at the corrupted Boat address, whose checksum
    mismatches: validate returns false. -/
theorem claim_C3_witness :
    b58validate bitcoin boatAddrBad = .ok false := by
  exact (claim_C3 bitcoin boatAddrBad
    [0, 118, 128, 173, 236, 142, 171, 202, 186, 198, 118, 190, 158, 131,
     133, 74, 222, 11, 210, 44, 219, 11, 185, 96, 226]
    (by decide) (by decide)).2 (by decide) (by decide)

/-! ## Claim C1 -/

set_option maxRecDepth 100000 in
/-- Counterexample for C1 as stated: the address 0 (byte 48) is not in the
    base-58 charset, so decoding raises ValueError; the entrypoint neither
    returns a result nor raises a resolution or input-shape error: the
    ValueError propagates as an uncaught fault instead of a false
    validation outcome. -/
theorem claim_C1_counterexample :
    coinValidate [bitcoin, ethereumCur] "btc" [48] = .error PyErr.valueError ∧
    PyErr.valueError ≠ PyErr.unknownCurrency ∧
    PyErr.valueError ≠ PyErr.unknownValidator ∧
    ∀ r : ValidationResult, coinValidate [bitcoin, ethereumCur] "btc" [48] ≠ .ok r := by
  have h : coinValidate [bitcoin, ethereumCur] "btc" [48] =
      .error PyErr.valueError := by decide
  exact ⟨h, by decide, by decide,
    fun r hr => by rw [h] at hr; exact Except.noConfusion hr⟩

/-- C1 (amended): for a Base58Check currency, a base-58 decoding failure
    propagates out of execute as the uncaught decode error, while a
    checksum failure on an address whose version byte resolves to a network
    completes normally with a result whose valid field is false. -/
theorem claim_C1 (c : Currency) (address : List Nat)
    (hval : c.validator = "Base58Check") :
    (∀ e, b58decodeE (reqCharset c) address = .error e →
      execute c address = .error e) ∧
    (∀ abytes b0 nm, b58decodeE (reqCharset c) address = .ok abytes →
      abytes.head? = some b0 →
      b58networkName c b0 = some nm →
      last4 abytes ≠ (sha256 (sha256 (dropLast4 abytes))).take 4 →
      execute c address = .ok ⟨c.name, c.ticker, address, false, nm⟩) := by
  have hreg : validatorsGet builtinRegistry "Base58Check" =
      some VKind.base58Check := by decide
  constructor
  · intro e hdec
    have hv : b58validate c address = .error e := by
      simp [b58validate, lengthGateB_eq_false, hdec]
    simp [execute, hval, hreg, hv]
  · intro abytes b0 nm hdec hh hnm hmis
    have hfind : ∃ q, c.networks.find? (fun p => p.2.contains b0) = some q ∧
        q.1 = nm := by
      unfold b58networkName at hnm
      cases hf : c.networks.find? (fun p => p.2.contains b0) with
      | none => rw [hf] at hnm; simp at hnm
      | some q =>
        rw [hf] at hnm
        exact ⟨q, rfl, by simpa using hnm⟩
    rcases hfind with ⟨q, hf, hq1⟩
    have hmem : b0 ∈ (c.networks.map Prod.snd).flatten :=
      mem_flatten_of_find?_contains hf
    have hnets : c.networks ≠ [] := by
      intro h; rw [h] at hf; simp at hf
    have hn : reqNetworksE c = .ok ((c.networks.map Prod.snd).flatten) := by
      simp [reqNetworksE, hnets]
    have hv : b58validate c address = .ok false := by
      simp [b58validate, lengthGateB_eq_false, hdec, hh, hn, hmem, hmis]
    have hnw : b58network c address = .ok (some nm) := by
      have hb : b58networkName c b0 = some nm := by
        unfold b58networkName
        rw [hf]
        simp [hq1]
      simp [b58network, hdec, hh, hb]
    simp [execute, hval, hreg, hv, hnw]

set_option maxRecDepth 1000000 in
/-- Witness for C1: for bitcoin, the undecodable address 0 makes execute
    propagate ValueError, and the corrupted Boat address (decodable, main
    network version byte, checksum mismatch) gives a normal result with
    valid false. -/
theorem claim_C1_witness :
    execute bitcoin [48] = .error PyErr.valueError ∧
    execute bitcoin boatAddrBad =
      .ok ⟨"bitcoin", "btc", boatAddrBad, false, "main"⟩ := by
  refine ⟨(claim_C1 bitcoin [48] rfl).1 PyErr.valueError (by decide), ?_⟩
  exact (claim_C1 bitcoin boatAddrBad rfl).2
    [0, 118, 128, 173, 236, 142, 171, 202, 186, 198, 118, 190, 158, 131,
     133, 74, 222, 11, 210, 44, 219, 11, 185, 96, 226]
    0 "main" (by decide) (by decide) (by decide) (by decide)

/-! ## Claim C8 -/

/-- Effect of a single registration on a subsequent lookup: a new entry is
    visible only when its name is truthy, matches the lookup, and was not
    already present; every other lookup is unchanged. -/
theorem validatorsGet_registerV {α : Type} (r : List (String × α))
    (nm : Option String) (v : α) (n : String) :
    validatorsGet (registerV r nm v) n =
      if nm = some n ∧ n ≠ "" ∧ (validatorsGet r n).isNone then some v
      else validatorsGet r n := by
  cases nm with
  | none => simp [registerV]
  | some m =>
    simp only [registerV]
    by_cases hm : m = ""
    · subst hm
      rw [if_pos rfl, if_neg]
      rintro ⟨h1, h2, _⟩
      exact h2 (Option.some.inj h1).symm
    · rw [if_neg hm]
      by_cases hc : (r.find? (fun p => p.1 == m)).isSome
      · rw [if_pos hc, if_neg]
        rintro ⟨h1, _, h3⟩
        rw [Option.some.inj h1] at hc
        have h4 : validatorsGet r n = none := Option.isNone_iff_eq_none.mp h3
        simp only [validatorsGet, Option.map_eq_none'] at h4
        rw [h4] at hc
        simp at hc
      · rw [if_neg hc]
        simp only [validatorsGet, List.find?_append]
        by_cases hmn : m = n
        · subst hmn
          cases hfr : r.find? (fun p => p.1 == m) with
          | none => simp [hfr, validatorsGet, hm]
          | some q => simp [hfr, validatorsGet, hm]
        · have hone : List.find? (fun p => p.1 == n) [(m, v)] = none := by
            simp [hmn]
          simp [hone, hmn, validatorsGet]

/-- Lookup through a fold of registrations: the accumulated registry wins
    first, then the first matching truthy registration of the batch. -/
theorem validatorsGet_foldl {α : Type} :
    ∀ (regs : List (Option String × α)) (r : List (String × α)) (n : String),
      validatorsGet (regs.foldl (fun acc p => registerV acc p.1 p.2) r) n =
        (validatorsGet r n).or (firstRegistered regs n) := by
  intro regs
  induction regs with
  | nil =>
    intro r n
    simp [firstRegistered]
  | cons p regs ih =>
    intro r n
    rw [List.foldl_cons, ih, validatorsGet_registerV]
    by_cases hn : n = ""
    · subst hn
      simp [firstRegistered]
    · by_cases hp : p.1 = some n
      · by_cases hr : validatorsGet r n = none
        · rw [if_pos ⟨hp, hn, by rw [hr]; rfl⟩, hr]
          simp [firstRegistered, hn, hp]
        · rw [if_neg (by rintro ⟨_, _, h⟩; exact hr (Option.isNone_iff_eq_none.mp h))]
          cases hv : validatorsGet r n with
          | none => exact absurd hv hr
          | some w => simp
      · rw [if_neg (by rintro ⟨h, _, _⟩; exact hp h)]
        have heq : firstRegistered (p :: regs) n = firstRegistered regs n := by
          simp [firstRegistered, hn, hp]
        rw [heq]

/-- C8: registration is first-wins and idempotent: re-registering an
    already-present name leaves the registry unchanged (and raises
    nothing), and looking a name up in the registry built from a sequence
    of registrations returns the first validator registered under that
    name. -/
theorem claim_C8 {α : Type} :
    (∀ (r : List (String × α)) (n : String) (v w : α),
      registerV (registerV r (some n) v) (some n) w = registerV r (some n) v) ∧
    (∀ (regs : List (Option String × α)) (n : String),
      validatorsGet (registerAll regs) n = firstRegistered regs n) := by
  constructor
  · intro r n v w
    by_cases hn : n = ""
    · simp [registerV, hn]
    · by_cases hc : (r.find? (fun p => p.1 == n)).isSome
      · simp [registerV, hn, hc]
      · have h2 : ((r ++ [(n, v)]).find? (fun p => p.1 == n)).isSome = true := by
          simp [List.find?_append]
        simp [registerV, hn, hc, h2]
  · intro regs n
    unfold registerAll
    rw [validatorsGet_foldl]
    simp [validatorsGet]

/-! ## Claim C6 -/

/-- The chi step always yields a 25-lane state. -/
theorem keccakChi_length (b : List Nat) : (keccakChi b).length = 25 := by
  simp [keccakChi]

/-- A Keccak round always yields a 25-lane state. -/
theorem keccakRound_length (a : List Nat) (rc : Nat) :
    (keccakRound a rc).length = 25 := by
  unfold keccakRound
  cases h : keccakChi (keccakRhoPi (keccakTheta a)) with
  | nil =>
    have h2 := keccakChi_length (keccakRhoPi (keccakTheta a))
    rw [h] at h2
    simp at h2
  | cons a0 rest =>
    have h2 := keccakChi_length (keccakRhoPi (keccakTheta a))
    rw [h] at h2
    simpa using h2

/-- Folding rounds over a nonempty constant list yields a 25-lane state. -/
theorem foldl_keccakRound_length (l : List Nat) (hl : l ≠ []) :
    ∀ a : List Nat, (l.foldl keccakRound a).length = 25 := by
  induction l with
  | nil => exact absurd rfl hl
  | cons rc t ih =>
    intro a
    rw [List.foldl_cons]
    cases t with
    | nil => simpa using keccakRound_length a rc
    | cons rc2 t2 => exact ih (by simp) _

/-- The Keccak permutation yields a 25-lane state. -/
theorem keccakF_length (a : List Nat) : (keccakF a).length = 25 :=
  foldl_keccakRound_length keccakRC (by decide) a

/-- Absorbing a block yields a 25-lane state. -/
theorem keccakAbsorb_length (st block : List Nat) :
    (keccakAbsorb st block).length = 25 := keccakF_length _

/-- Absorbing any number of blocks preserves the 25-lane state length. -/
theorem foldl_keccakAbsorb_length (blocks : List (List Nat)) :
    ∀ st : List Nat, st.length = 25 →
      (blocks.foldl keccakAbsorb st).length = 25 := by
  induction blocks with
  | nil => intro st h; simpa using h
  | cons b t ih =>
    intro st h
    rw [List.foldl_cons]
    exact ih _ (keccakAbsorb_length st b)

/-- Each lane squeezes to 8 bytes. -/
theorem flatMap_laneToBytesLE_length (l : List Nat) :
    (l.flatMap laneToBytesLE).length = 8 * l.length := by
  induction l with
  | nil => simp
  | cons a t ih =>
    rw [List.flatMap_cons, List.length_append, ih]
    simp [laneToBytesLE]
    omega

/-- A Keccak-256 digest has 32 bytes. -/
theorem keccak256_length (msg : List Nat) : (keccak256 msg).length = 32 := by
  simp only [keccak256]
  rw [flatMap_laneToBytesLE_length, List.length_take,
    foldl_keccakAbsorb_length _ _ (by simp)]
  decide

/-- A hex digest has two characters per byte. -/
theorem hexdigest_length (bs : List Nat) :
    (hexdigest bs).length = 2 * bs.length := by
  induction bs with
  | nil => simp [hexdigest]
  | cons b t ih =>
    simp only [hexdigest] at ih ⊢
    rw [List.flatMap_cons, List.length_append, ih]
    simp
    omega

/-- The checksum digest text has 64 characters for every address. -/
theorem ethHashHex_length (address : List Char) :
    (ethHashHex address).length = 64 := by
  unfold ethHashHex
  rw [hexdigest_length, keccak256_length]

/-- Characterization of the checksum loop: with the digest long enough,
    the loop never raises, and it returns True exactly when every
    remaining position agrees with the digest. -/
theorem ethCheckAux_spec (addr hash : List Char)
    (hlen : addr.length ≤ hash.length) :
    ∀ (fuel i : Nat), fuel + i = addr.length →
      ((ethCheckAux addr hash fuel i = .ok true ∨
        ethCheckAux addr hash fuel i = .ok false) ∧
       (ethCheckAux addr hash fuel i = .ok true ↔
        ∀ j, i ≤ j → j < addr.length → ethPosOk addr hash j)) := by
  intro fuel
  induction fuel with
  | zero =>
    intro i hi
    refine ⟨Or.inl rfl, ?_⟩
    constructor
    · intro _ j hij hjlen
      exact absurd hjlen (by omega)
    · intro _
      rfl
  | succ fuel ih =>
    intro i hi
    have hilt : i < addr.length := by omega
    have hih : i < hash.length := lt_of_lt_of_le hilt hlen
    obtain ⟨hc, hhc⟩ : ∃ c, hash[i]? = some c :=
      ⟨hash.get ⟨i, hih⟩, by rw [← List.get?_eq_getElem?]; exact List.get?_eq_get hih⟩
    have hcond : (ethMismatch addr hash i = false) ↔ ethPosOk addr hash i := by
      simp [ethMismatch, ethPosOk]
    by_cases hb : ethMismatch addr hash i = true
    · have hstep : ethCheckAux addr hash (fuel + 1) i = .ok false := by
        simp [ethCheckAux, hhc, hb]
      refine ⟨Or.inr hstep, ?_⟩
      rw [hstep]
      constructor
      · intro h
        exact absurd h (by simp)
      · intro hall
        have h1 := hcond.mpr (hall i (Nat.le_refl i) hilt)
        rw [hb] at h1
        exact absurd h1 (by simp)
    · have hbf : ethMismatch addr hash i = false := by simpa using hb
      have hposi : ethPosOk addr hash i := hcond.mp hbf
      have hstep : ethCheckAux addr hash (fuel + 1) i =
          ethCheckAux addr hash fuel (i + 1) := by
        simp [ethCheckAux, hhc, hbf]
      obtain ⟨hd, hiff⟩ := ih (i + 1) (by omega)
      rw [hstep]
      refine ⟨hd, ?_⟩
      rw [hiff]
      constructor
      · intro hall j hij hlt
        rcases Nat.eq_or_lt_of_le hij with rfl | hlt2
        · exact hposi
        · exact hall j (by omega) hlt
      · intro hall j hij hlt
        exact hall j (by omega) hlt

/-- C6: in the mixed-case checksum path, for an ASCII post-strip address of
    at most 64 characters, validate returns true exactly when every
    position agrees with the Keccak digest of the lowercased post-strip
    address (hash digit above 7 forces uppercase, at most 7 forces
    lowercase), and any mismatch yields the normal false outcome. -/
theorem claim_C6 (address : List Char)
    (hpat1 : ethPatMatch isHexLowerCh address = false)
    (hpat2 : ethPatMatch isHexUpperCh address = false)
    (hascii : ((postStrip address).map Char.toLower).all
      (fun c => decide (c.toNat < 128)) = true)
    (hlen : (postStrip address).length ≤ 64) :
    (ethValidate address = .ok true ↔
      ∀ i, i < (postStrip address).length →
        ethPosOk (postStrip address) (ethHashHex address) i) ∧
    (ethValidate address = .ok true ∨ ethValidate address = .ok false) := by
  have hv : ethValidate address =
      ethCheckAux (postStrip address) (ethHashHex address)
        (postStrip address).length 0 := by
    simp [ethValidate, hpat1, hpat2, hascii, ethHashHex]
  have hhash : (postStrip address).length ≤ (ethHashHex address).length := by
    rw [ethHashHex_length]
    exact hlen
  obtain ⟨hd, hiff⟩ := ethCheckAux_spec (postStrip address) (ethHashHex address)
    hhash (postStrip address).length 0 (by omega)
  refine ⟨?_, ?_⟩
  · rw [hv, hiff]
    constructor
    · intro h i hi
      exact h i (Nat.zero_le i) hi
    · intro h j _ hj
      exact h j hj
  · rw [hv]
    exact hd

set_option maxRecDepth 1000000 in
/-- Witness for C6: the canonical EIP-55 mixed-case test address goes
    through the checksum path and validates true via the position-wise
    digest agreement. -/
theorem claim_C6_witness :
    ethValidate ("0x5aAeb6053F3E94C9b9A09f33669435E7Ef1BeAed".toList) =
      .ok true := by
  exact (claim_C6 ("0x5aAeb6053F3E94C9b9A09f33669435E7Ef1BeAed".toList)
    (by decide) (by decide) (by decide) (by decide)).1.mpr (by decide)
